import Mathlib

/-!
Shallow embedding of the WordEmbeddings-GloVe repository (src/p3.ipynb).

The notebook defines three functions:

* `load_glove_model` — reads lines of a GloVe text file, splits each line on
  whitespace, takes the first token as the word and converts the remaining
  tokens to a float vector with `np.array(split_line[1:], dtype=np.float32)`,
  and stores the pair in a Python dict (later lines overwrite earlier entries
  for the same word).
* `cosine_similarity` — if both words are keys of the dict, returns
  `dot(vec1, vec2) / (norm(vec1) * norm(vec2))`, else returns `None`.
* `find_most_similar` — if the word is not a key, returns `None`; otherwise
  builds the dict of similarities to every other word, sorts its items by
  score descending (Python's stable `sorted` with `reverse=True`) and
  returns the first `top_n` items.

Modelling choices, stated once here and referenced in doc comments below:

* Python float values are modelled exactly: vector components as `ℚ`
  (tokens of a GloVe file are decimal literals), similarity scores as `ℝ`
  (the norms involve square roots).  Floating-point rounding and the
  `nan`/`inf` values produced by dividing by a zero norm are outside the
  model; real division by zero yields `0` in Lean.
* A Python dict is modelled as an association list in insertion order with
  unique keys; `dictInsert` mirrors `d[k] = v` (overwrite in place, append
  if new) and `dictFind` mirrors `k in d` / `d[k]`.
* A Python exception escaping `load_glove_model` (IndexError on an empty
  line, ValueError from `np.array` on a non-numeric token) is modelled by
  `Option`: `none` means the construction raised and produced no store.
* `np.dot` on two equal-length vectors is the sum of pairwise products;
  the Lean model truncates to the shorter length, and every theorem about
  similarity values over arbitrary stores carries the store invariant
  `dimsOK` (all vectors of one store have one length), under which the
  truncation is invisible.  `np.linalg.norm v = sqrt (dot v v)`.
-/

namespace Glove

/-- One run of non-whitespace characters, accumulated in reverse. Models the
scanner behind Python's `str.split()` with no separator argument. -/
def splitWSAux : List Char → List Char → List String
  | [], acc => if acc.isEmpty then [] else [String.mk acc.reverse]
  | c :: cs, acc =>
    if c.isWhitespace then
      if acc.isEmpty then splitWSAux cs [] else String.mk acc.reverse :: splitWSAux cs []
    else
      splitWSAux cs (c :: acc)

/-- Python's `line.split()`: split on runs of whitespace, no empty tokens. -/
def splitWS (line : String) : List String := splitWSAux line.data []

/-- The numeric value of a digit character. -/
def digitVal (c : Char) : Nat :=
  if c = '0' then 0 else if c = '1' then 1 else if c = '2' then 2 else if c = '3' then 3
  else if c = '4' then 4 else if c = '5' then 5 else if c = '6' then 6 else if c = '7' then 7
  else if c = '8' then 8 else 9

/-- Leading digits of a character list, as values, plus the rest. -/
def takeDigits : List Char → List Nat × List Char
  | [] => ([], [])
  | c :: cs =>
    if c.isDigit then
      let p := takeDigits cs
      (digitVal c :: p.1, p.2)
    else
      ([], c :: cs)

/-- The number a digit string denotes, most significant first. -/
def natOfDigits (ds : List Nat) : Nat := ds.foldl (fun a d => 10 * a + d) 0

/-- Optional leading sign of a numeric literal, as a rational factor. -/
def signQ : List Char → ℚ × List Char
  | '+' :: cs => (1, cs)
  | '-' :: cs => ((-1 : ℚ), cs)
  | cs => (1, cs)

/-- Optional leading sign of an exponent, as an integer factor. -/
def signZ : List Char → ℤ × List Char
  | '+' :: cs => (1, cs)
  | '-' :: cs => ((-1 : ℤ), cs)
  | cs => (1, cs)

/-- Exponent suffix of a float literal: empty means exponent `0`; otherwise
`e`/`E`, an optional sign and at least one digit, consuming everything. -/
def expPart : List Char → Option ℤ
  | [] => some 0
  | c :: cs =>
    if c = 'e' ∨ c = 'E' then
      let p := signZ cs
      let q := takeDigits p.2
      if q.1.isEmpty ∨ ¬ q.2.isEmpty then none else some (p.1 * (natOfDigits q.1 : ℤ))
    else none

/-- One vector token as `np.float32` parses it, by value over `ℚ`: optional
sign, digits with an optional point (at least one digit), optional exponent.
`none` models the ValueError `np.array(..., dtype=np.float32)` raises on a
non-numeric token (the `inf`/`nan` literals are outside the model). -/
def parseFloatQ (s : String) : Option ℚ :=
  let p := signQ s.data
  let q := takeDigits p.2
  match q.2 with
  | '.' :: cs2 =>
    let r := takeDigits cs2
    if q.1.isEmpty ∧ r.1.isEmpty then none
    else
      match expPart r.2 with
      | some e =>
        some (p.1 * ((natOfDigits q.1 : ℚ) + (natOfDigits r.1 : ℚ) / (10 : ℚ) ^ r.1.length)
          * (10 : ℚ) ^ e)
      | none => none
  | _ =>
    if q.1.isEmpty then none
    else
      match expPart q.2 with
      | some e => some (p.1 * (natOfDigits q.1 : ℚ) * (10 : ℚ) ^ e)
      | none => none

/-- `np.array(tokens, dtype=np.float32)`: every token parsed as a float, in
order; `none` if any token fails. -/
def parseVec : List String → Option (List ℚ)
  | [] => some []
  | t :: ts =>
    match parseFloatQ t, parseVec ts with
    | some q, some qs => some (q :: qs)
    | _, _ => none

/-- The embedding store: a Python dict from word to vector, as an
association list in insertion order with unique keys. -/
abbrev Store := List (String × List ℚ)

/-- Python dict assignment `d[k] = v`: overwrite in place, append if new. -/
def dictInsert {α : Type} : List (String × α) → String → α → List (String × α)
  | [], w, v => [(w, v)]
  | (w', v') :: rest, w, v =>
    if w' = w then (w, v) :: rest else (w', v') :: dictInsert rest w v

/-- Python dict lookup: `d[k]` when `k in d`, else `none`. -/
def dictFind {α : Type} : List (String × α) → String → Option α
  | [], _ => none
  | (w', v) :: rest, w => if w' = w then some v else dictFind rest w

/-- The body of `load_glove_model`'s loop for one line:
`split_line = line.split(); word = split_line[0];
embedding = np.array(split_line[1:], dtype=np.float32)`.
`none` models the IndexError on a token-less line or the ValueError on a
non-numeric vector token. -/
def parseLine (line : String) : Option (String × List ℚ) :=
  match splitWS line with
  | [] => none
  | w :: rest =>
    match parseVec rest with
    | some v => some (w, v)
    | none => none

/-- The loop of `load_glove_model` over the remaining lines, carrying the
dict built so far; the first raising line aborts the whole construction. -/
def loadLines : Store → List String → Option Store
  | s, [] => some s
  | s, line :: rest =>
    match parseLine line with
    | some wv => loadLines (dictInsert s wv.1 wv.2) rest
    | none => none

/-- `load_glove_model`: build the dict from the file's lines, starting
empty. `none` means an exception escaped and no store was produced. -/
def load_glove_model (lines : List String) : Option Store := loadLines [] lines

/-- Whether one line of input survives `load_glove_model`'s loop body: it has
a first token (`split_line[0]` would not raise) and every remaining token is
numeric (`np.array(split_line[1:], dtype=np.float32)` would not raise). -/
def lineOK (line : String) : Bool :=
  !(splitWS line).isEmpty && (splitWS line).tail.all (fun t => (parseFloatQ t).isSome)

/-- The vector of the last input line carrying word `w`, if any line does.
Written from the spec's words for last-write-wins, to be compared with what
`load_glove_model` stores. -/
def lastVec (lines : List String) (w : String) : Option (List ℚ) :=
  match lines with
  | [] => none
  | line :: rest =>
    match parseLine line with
    | some wv =>
      match lastVec rest w with
      | some v2 => some v2
      | none => if wv.1 = w then some wv.2 else none
    | none => lastVec rest w

/-- The spec's Embedding Store invariant: all vectors of one store have the
same dimensionality.  `np.dot` is only defined for equal-length 1-D arrays,
so theorems about similarity values carry this invariant. -/
abbrev dimsOK (glove_vectors : Store) : Prop :=
  ∀ p ∈ glove_vectors, ∀ q ∈ glove_vectors, p.2.length = q.2.length

/-- `np.dot` of two equal-length float vectors: the sum of pairwise
products (on unequal lengths numpy raises; the model truncates, and every
theorem about similarity values assumes `dimsOK`). -/
def dot : List ℚ → List ℚ → ℚ
  | x :: xs, y :: ys => x * y + dot xs ys
  | _, _ => 0

/-- `np.linalg.norm`: the Euclidean norm, `sqrt (dot v v)`. -/
noncomputable def norm (v : List ℚ) : ℝ := Real.sqrt ((dot v v : ℚ) : ℝ)

/-- `cosine_similarity(word1, word2, glove_vectors)`: if both words are keys
of the dict, `dot(vec1, vec2) / (norm(vec1) * norm(vec2))`, else `None`.
There is no zero-norm branch in the source; real division by zero yields `0`
in the model where numpy would produce `nan`/`inf`. -/
noncomputable def cosine_similarity (word1 word2 : String) (glove_vectors : Store) : Option ℝ :=
  match dictFind glove_vectors word1, dictFind glove_vectors word2 with
  | some vec1, some vec2 => some (((dot vec1 vec2 : ℚ) : ℝ) / (norm vec1 * norm vec2))
  | _, _ => none

/-- The `similarities` dict of `find_most_similar`: one entry per key of the
store other than the query word, in store (insertion) order, scored by
`cosine_similarity`.  The keys of a dict are unique, so the dict's items are
this list; `cosine_similarity` never returns `None` here (both words are
keys), so the `Option.map`/`filterMap` branch for `none` is dead code. -/
noncomputable def similarities (word : String) (glove_vectors : Store) : List (String × ℝ) :=
  (glove_vectors.filter (fun p => p.1 ≠ word)).filterMap
    (fun p => (cosine_similarity word p.1 glove_vectors).map (fun r => (p.1, r)))

/-- Insert one scored word into an already sorted (descending) list, before
the first entry whose score is not larger. -/
noncomputable def insertDesc (x : String × ℝ) : List (String × ℝ) → List (String × ℝ)
  | [] => [x]
  | y :: ys => if y.2 ≤ x.2 then x :: y :: ys else y :: insertDesc x ys

/-- Python's stable `sorted(items, key=lambda item: item[1], reverse=True)`:
insertion sort by score descending; an earlier item stays before a
later item with an equal score. -/
noncomputable def sortDesc : List (String × ℝ) → List (String × ℝ)
  | [] => []
  | x :: xs => insertDesc x (sortDesc xs)

/-- `find_most_similar(word, glove_vectors, top_n)`: `None` if the word is
not a key; otherwise the first `top_n` items of the similarities sorted by
score descending. -/
noncomputable def find_most_similar (word : String) (glove_vectors : Store) (top_n : ℕ) :
    Option (List (String × ℝ)) :=
  if (dictFind glove_vectors word).isSome then
    some ((sortDesc (similarities word glove_vectors)).take top_n)
  else none

/-- Scores sorted by non-increasing similarity, as the spec states it. -/
def SortedDesc (l : List (String × ℝ)) : Prop :=
  List.Sorted (fun a b : String × ℝ => b.2 ≤ a.2) l

/-- A three-word store of unit vectors, used as a concrete witness input. -/
def gvA : Store := [("a", [1, 0]), ("b", [0, 1]), ("c", [3 / 5, 4 / 5])]

/-- A two-word store of unit vectors, used as a concrete witness input. -/
def gvB : Store := [("a", [1, 0]), ("b", [0, 1])]

/-- A store holding a zero-magnitude vector, used as a concrete witness
input for the zero-norm edge case. -/
def gvZ : Store := [("a", [0]), ("b", [1])]

/-- The cosine score of the two vectors of `gvB`, written out. -/
noncomputable def scoreAB : ℝ :=
  ((dot [(1 : ℚ), 0] [(0 : ℚ), 1] : ℚ) : ℝ) / (norm [(1 : ℚ), 0] * norm [(0 : ℚ), 1])

/-! ### Lemmas about store construction -/

theorem parseVec_isSome (ts : List String) :
    (parseVec ts).isSome = ts.all (fun t => (parseFloatQ t).isSome) := by
  induction ts with
  | nil => rfl
  | cons t ts ih =>
    simp only [parseVec, List.all_cons]
    cases h1 : parseFloatQ t <;> cases h2 : parseVec ts <;>
      simp_all

theorem parseLine_isSome (line : String) : (parseLine line).isSome = lineOK line := by
  unfold parseLine lineOK
  cases h : splitWS line with
  | nil => rfl
  | cons w rest =>
    simp only [List.isEmpty_cons, List.tail_cons, Bool.not_false, Bool.true_and,
      ← parseVec_isSome]
    cases parseVec rest <;> simp

theorem loadLines_isSome (lines : List String) :
    ∀ s : Store, (loadLines s lines).isSome = lines.all lineOK := by
  induction lines with
  | nil => intro s; rfl
  | cons line rest ih =>
    intro s
    simp only [loadLines, List.all_cons]
    cases h : parseLine line with
    | none =>
      have := parseLine_isSome line
      rw [h] at this
      simp [← this]
    | some wv =>
      have := parseLine_isSome line
      rw [h] at this
      simp [← this, ih]

theorem load_glove_model_isSome (lines : List String) :
    (load_glove_model lines).isSome = lines.all lineOK :=
  loadLines_isSome lines []

theorem load_glove_model_eq_none_of_lineOK_false {lines : List String} {line : String}
    (hline : line ∈ lines) (hbad : lineOK line = false) :
    load_glove_model lines = none := by
  have h := load_glove_model_isSome lines
  have hall : lines.all lineOK = false := List.all_eq_false.2 ⟨line, hline, by simp [hbad]⟩
  rw [hall] at h
  exact Option.not_isSome_iff_eq_none.1 (by simp [h])

theorem dictFind_dictInsert {α : Type} (s : List (String × α)) (w w' : String) (v : α) :
    dictFind (dictInsert s w v) w' = if w = w' then some v else dictFind s w' := by
  induction s with
  | nil => simp [dictInsert, dictFind]
  | cons p rest ih =>
    obtain ⟨pw, pv⟩ := p
    by_cases h1 : pw = w
    · subst h1
      simp only [dictInsert, if_pos rfl, dictFind]
      by_cases h2 : pw = w' <;> simp [h2]
    · simp only [dictInsert, if_neg h1, dictFind, ih]
      by_cases h2 : pw = w' <;> by_cases h3 : w = w' <;> simp_all

theorem mem_keys_dictInsert {α : Type} (s : List (String × α)) (w u : String) (v : α) :
    u ∈ (dictInsert s w v).map Prod.fst ↔ u ∈ s.map Prod.fst ∨ u = w := by
  induction s with
  | nil => simp [dictInsert]
  | cons p rest ih =>
    obtain ⟨pw, pv⟩ := p
    by_cases h1 : pw = w
    · subst h1
      simp [dictInsert]
      tauto
    · simp [dictInsert, if_neg h1, ih]
      tauto

theorem nodup_keys_dictInsert {α : Type} (s : List (String × α)) (w : String) (v : α)
    (h : (s.map Prod.fst).Nodup) : ((dictInsert s w v).map Prod.fst).Nodup := by
  induction s with
  | nil => simp [dictInsert]
  | cons p rest ih =>
    obtain ⟨pw, pv⟩ := p
    simp only [List.map_cons, List.nodup_cons] at h
    by_cases h1 : pw = w
    · subst h1
      have hins : dictInsert ((pw, pv) :: rest) pw v = (pw, v) :: rest := by
        simp [dictInsert]
      rw [hins]
      simp only [List.map_cons, List.nodup_cons]
      exact h
    · simp only [dictInsert, if_neg h1, List.map_cons, List.nodup_cons]
      refine ⟨?_, ih h.2⟩
      rw [mem_keys_dictInsert]
      push_neg
      exact ⟨h.1, h1⟩

theorem nodup_keys_loadLines (lines : List String) :
    ∀ s s' : Store, loadLines s lines = some s' → (s.map Prod.fst).Nodup →
      (s'.map Prod.fst).Nodup := by
  induction lines with
  | nil =>
    intro s s' h hs
    simp only [loadLines, Option.some.injEq] at h
    exact h ▸ hs
  | cons line rest ih =>
    intro s s' h hs
    simp only [loadLines] at h
    cases hp : parseLine line with
    | none => rw [hp] at h; exact absurd h (by simp)
    | some wv =>
      rw [hp] at h
      exact ih _ _ h (nodup_keys_dictInsert s wv.1 wv.2 hs)

theorem dictFind_loadLines (lines : List String) :
    ∀ s s' : Store, loadLines s lines = some s' → ∀ w,
      dictFind s' w = ((lastVec lines w).rec (dictFind s w) fun v => some v) := by
  induction lines with
  | nil =>
    intro s s' h w
    simp only [loadLines, Option.some.injEq] at h
    subst h
    rfl
  | cons line rest ih =>
    intro s s' h w
    simp only [loadLines] at h
    cases hp : parseLine line with
    | none => rw [hp] at h; exact absurd h (by simp)
    | some wv =>
      rw [hp] at h
      have hrec := ih _ _ h w
      unfold lastVec
      rw [hp]
      cases hl : lastVec rest w with
      | some v2 =>
        rw [hl] at hrec
        exact hrec
      | none =>
        rw [hl] at hrec
        rw [dictFind_dictInsert] at hrec
        by_cases hw : wv.1 = w <;> simp [hw] at hrec ⊢ <;> exact hrec

/-- C4 counterexample: a line whose vector length differs from the first
line's (here 1 versus 2) is not rejected; construction succeeds and the
mismatched vector is inserted into the store. -/
theorem claim_C4_counterexample :
    load_glove_model ["a 1 2", "b 3"] = some [("a", [1, 2]), ("b", [3])] := by
  norm_num +decide [load_glove_model, loadLines, parseLine, splitWS, splitWSAux, parseVec,
    parseFloatQ, signQ, takeDigits, digitVal, natOfDigits, expPart, dictInsert]

/-- C4 (amended): store construction performs no dimensionality check at
all.  Whether it succeeds is decided line by line — a first token exists and
every vector token is numeric — and never by comparing a line's vector
length against the established dimensionality. -/
theorem claim_C4_no_dimension_check (lines : List String) :
    (load_glove_model lines).isSome = lines.all lineOK :=
  load_glove_model_isSome lines

/-- C5: a line with a non-numeric token in its vector portion makes store
construction signal the malformed input (the ValueError of `np.array`) and
yield no store. -/
theorem claim_C5_nonnumeric_token_fails (lines : List String) (line tok : String)
    (hline : line ∈ lines) (htok : tok ∈ (splitWS line).tail)
    (hbad : parseFloatQ tok = none) :
    load_glove_model lines = none := by
  refine load_glove_model_eq_none_of_lineOK_false hline ?_
  unfold lineOK
  cases h : splitWS line with
  | nil =>
    rw [h] at htok
    simp at htok
  | cons w rest =>
    rw [h] at htok
    simp only [List.tail_cons] at htok
    simp only [List.isEmpty_cons, Bool.not_false, Bool.true_and, List.tail_cons]
    exact List.all_eq_false.2 ⟨tok, htok, by simp [hbad]⟩

/-- C5 witness: the spec's concrete scenario, a line with vector token
`abc`. -/
theorem claim_C5_witness :
    ("bad abc 1.0" ∈ ["bad abc 1.0"] ∧ "abc" ∈ (splitWS "bad abc 1.0").tail ∧
      parseFloatQ "abc" = none) ∧
    load_glove_model ["bad abc 1.0"] = none :=
  ⟨⟨by decide, by decide, by decide⟩,
    claim_C5_nonnumeric_token_fails _ "bad abc 1.0" "abc" (by decide) (by decide) (by decide)⟩

/-- C10: a line with no tokens at all (empty or whitespace-only) makes store
construction fail (the IndexError of `split_line[0]`) rather than skip the
line or insert anything. -/
theorem claim_C10_tokenless_line_fails (lines : List String) (line : String)
    (hline : line ∈ lines) (hsplit : splitWS line = []) :
    load_glove_model lines = none := by
  refine load_glove_model_eq_none_of_lineOK_false hline ?_
  unfold lineOK
  rw [hsplit]
  rfl

/-- C10 witness: one whitespace-only line aborts the whole load. -/
theorem claim_C10_witness :
    ("  " ∈ ["x 1 2", "  "] ∧ splitWS "  " = []) ∧
    load_glove_model ["x 1 2", "  "] = none :=
  ⟨⟨by decide, by decide⟩,
    claim_C10_tokenless_line_fails _ "  " (by decide) (by decide)⟩

/-- C6: when the same word appears on several input lines, the constructed
store keeps exactly one entry per word (its key list has no duplicates) and
lookup of any word yields the vector of the last input line carrying it. -/
theorem claim_C6_last_write_wins (lines : List String) (s : Store)
    (h : load_glove_model lines = some s) :
    (s.map Prod.fst).Nodup ∧ ∀ w, dictFind s w = lastVec lines w := by
  refine ⟨nodup_keys_loadLines lines [] s h (by simp), fun w => ?_⟩
  have hrec := dictFind_loadLines lines [] s h w
  cases hl : lastVec lines w <;> rw [hl] at hrec <;> exact hrec

/-- C6 witness: the spec's concrete scenario — two lines for `apple` leave
one entry whose vector is the second line's `[0, 1]`. -/
theorem claim_C6_witness :
    (load_glove_model ["apple 1 0", "apple 0 1"] = some [("apple", [0, 1])]) ∧
    (([("apple", [0, 1])].map (Prod.fst (α := String) (β := List ℚ))).Nodup ∧
      ∀ w, dictFind [("apple", [0, 1])] w = lastVec ["apple 1 0", "apple 0 1"] w) :=
  ⟨by norm_num +decide [load_glove_model, loadLines, parseLine, splitWS, splitWSAux, parseVec,
      parseFloatQ, signQ, takeDigits, digitVal, natOfDigits, expPart, dictInsert],
    claim_C6_last_write_wins _ _
      (by norm_num +decide [load_glove_model, loadLines, parseLine, splitWS, splitWSAux, parseVec,
        parseFloatQ, signQ, takeDigits, digitVal, natOfDigits, expPart, dictInsert])⟩

/-! ### Lemmas about the similarity engine -/

theorem dot_comm (v w : List ℚ) : dot v w = dot w v := by
  induction v generalizing w with
  | nil => cases w <;> rfl
  | cons x xs ih =>
    cases w with
    | nil => rfl
    | cons y ys =>
      simp only [dot]
      rw [ih]
      ring

theorem dot_self_nonneg (v : List ℚ) : 0 ≤ dot v v := by
  induction v with
  | nil => exact le_refl 0
  | cons x xs ih =>
    simp only [dot]
    nlinarith [sq_nonneg x]

theorem dot_sq_le (v w : List ℚ) : dot v w * dot v w ≤ dot v v * dot w w := by
  induction v generalizing w with
  | nil =>
    cases w <;> simp [dot]
  | cons x xs ih =>
    cases w with
    | nil =>
      simp only [dot]
      nlinarith [dot_self_nonneg xs, sq_nonneg x]
    | cons y ys =>
      have hA := dot_self_nonneg xs
      have hB := dot_self_nonneg ys
      have hI := ih ys
      simp only [dot]
      rcases eq_or_lt_of_le hB with hB0 | hBpos
      · have hd2 : dot xs ys * dot xs ys ≤ 0 := by nlinarith
        have hd0 : dot xs ys = 0 := by nlinarith [mul_self_nonneg (dot xs ys)]
        rw [hd0]
        nlinarith [sq_nonneg x, mul_nonneg hA (sq_nonneg y), sq_nonneg (x * y)]
      · nlinarith [sq_nonneg (x * dot ys ys - y * dot xs ys),
          mul_nonneg (sq_nonneg y) (sub_nonneg.2 hI),
          mul_nonneg (le_of_lt hBpos) (sub_nonneg.2 hI),
          mul_pos hBpos hBpos]

theorem norm_nonneg_q (v : List ℚ) : 0 ≤ norm v := Real.sqrt_nonneg _

theorem abs_dot_le_norm_mul_norm (v w : List ℚ) :
    |((dot v w : ℚ) : ℝ)| ≤ norm v * norm w := by
  unfold norm
  have h1 : (0 : ℝ) ≤ ((dot v v : ℚ) : ℝ) := by exact_mod_cast dot_self_nonneg v
  rw [← Real.sqrt_mul h1]
  rw [← Real.sqrt_sq_eq_abs]
  apply Real.sqrt_le_sqrt
  have hcs := dot_sq_le v w
  have : ((dot v w : ℚ) : ℝ) ^ 2 = ((dot v w * dot v w : ℚ) : ℝ) := by
    push_cast
    ring
  rw [this]
  exact_mod_cast hcs

theorem cosScore_bounds (v w : List ℚ) :
    -1 ≤ ((dot v w : ℚ) : ℝ) / (norm v * norm w) ∧
      ((dot v w : ℚ) : ℝ) / (norm v * norm w) ≤ 1 := by
  have hn0 : 0 ≤ norm v * norm w := mul_nonneg (norm_nonneg_q v) (norm_nonneg_q w)
  have habs := abs_dot_le_norm_mul_norm v w
  rcases eq_or_lt_of_le hn0 with h | h
  · rw [← h, div_zero]
    norm_num
  · have hd := abs_le.1 habs
    constructor
    · rw [le_div_iff₀ h]
      linarith [hd.1]
    · rw [div_le_one h]
      exact hd.2

theorem dictFind_isSome_iff_mem_keys {α : Type} (s : List (String × α)) (w : String) :
    (dictFind s w).isSome = true ↔ w ∈ s.map Prod.fst := by
  induction s with
  | nil => simp [dictFind]
  | cons p rest ih =>
    obtain ⟨pw, pv⟩ := p
    simp only [dictFind, List.map_cons, List.mem_cons]
    by_cases h : pw = w
    · subst h
      simp
    · rw [if_neg h, ih]
      constructor
      · exact fun hm => Or.inr hm
      · rintro (h1 | h2)
        · exact absurd h1.symm h
        · exact h2

theorem cosine_similarity_eq_some {w1 w2 : String} {gv : Store} {r : ℝ}
    (h : cosine_similarity w1 w2 gv = some r) :
    ∃ v1 v2, dictFind gv w1 = some v1 ∧ dictFind gv w2 = some v2 ∧
      r = ((dot v1 v2 : ℚ) : ℝ) / (norm v1 * norm v2) := by
  unfold cosine_similarity at h
  cases h1 : dictFind gv w1 with
  | none => rw [h1] at h; exact absurd h (by simp)
  | some v1 =>
    cases h2 : dictFind gv w2 with
    | none => rw [h1, h2] at h; exact absurd h (by simp)
    | some v2 =>
      rw [h1, h2] at h
      simp only [Option.some.injEq] at h
      exact ⟨v1, v2, rfl, rfl, h.symm⟩

theorem cosine_similarity_isSome {word other : String} {gv : Store}
    (hw : (dictFind gv word).isSome = true) (ho : (dictFind gv other).isSome = true) :
    (cosine_similarity word other gv).isSome = true := by
  unfold cosine_similarity
  obtain ⟨v1, h1⟩ := Option.isSome_iff_exists.1 hw
  obtain ⟨v2, h2⟩ := Option.isSome_iff_exists.1 ho
  rw [h1, h2]
  rfl

theorem length_filterMap_of_isSome {α β : Type} (f : α → Option β) :
    ∀ l : List α, (∀ a ∈ l, (f a).isSome = true) → (l.filterMap f).length = l.length := by
  intro l
  induction l with
  | nil => intro _; rfl
  | cons a as ih =>
    intro h
    have ha := h a (List.mem_cons_self a as)
    obtain ⟨b, hb⟩ := Option.isSome_iff_exists.1 ha
    rw [List.filterMap_cons, hb, List.length_cons,
      ih fun x hx => h x (List.mem_cons_of_mem a hx)]
    rfl

theorem length_similarities {word : String} {gv : Store}
    (hw : (dictFind gv word).isSome = true) :
    (similarities word gv).length = (gv.filter (fun p => p.1 ≠ word)).length := by
  unfold similarities
  apply length_filterMap_of_isSome
  intro q hq
  have hq' : q ∈ gv := List.mem_of_mem_filter hq
  have hkey : q.1 ∈ gv.map Prod.fst := List.mem_map.2 ⟨q, hq', rfl⟩
  have ho : (dictFind gv q.1).isSome = true := (dictFind_isSome_iff_mem_keys gv q.1).2 hkey
  have hc := cosine_similarity_isSome hw ho
  obtain ⟨r, hr⟩ := Option.isSome_iff_exists.1 hc
  rw [hr]
  rfl

theorem mem_similarities {word : String} {gv : Store} {p : String × ℝ}
    (hp : p ∈ similarities word gv) :
    p.1 ≠ word ∧ cosine_similarity word p.1 gv = some p.2 := by
  unfold similarities at hp
  obtain ⟨q, hq, hfq⟩ := List.mem_filterMap.1 hp
  cases hc : cosine_similarity word q.1 gv with
  | none => rw [hc] at hfq; exact absurd hfq (by simp)
  | some r =>
    rw [hc] at hfq
    simp only [Option.map_some', Option.some.injEq] at hfq
    have hq1 : q.1 ≠ word := by
      have := List.of_mem_filter hq
      simpa using this
    rw [← hfq]
    exact ⟨hq1, hc⟩

theorem length_filter_ne_key (gv : Store) (word : String)
    (hnd : (gv.map Prod.fst).Nodup) (hw : word ∈ gv.map Prod.fst) :
    (gv.filter (fun p => p.1 ≠ word)).length = gv.length - 1 := by
  induction gv with
  | nil => simp at hw
  | cons p rest ih =>
    obtain ⟨pw, pv⟩ := p
    simp only [List.map_cons, List.nodup_cons] at hnd
    by_cases h : pw = word
    · subst h
      have hall : rest.filter (fun p => p.1 ≠ pw) = rest := by
        apply List.filter_eq_self.2
        intro q hq
        have : q.1 ∈ rest.map Prod.fst := List.mem_map.2 ⟨q, hq, rfl⟩
        have hne : q.1 ≠ pw := fun he => hnd.1 (he ▸ this)
        simpa using hne
      rw [List.filter_cons_of_neg (by simp), hall, List.length_cons]
      simp
    · have hw' : word ∈ rest.map Prod.fst := by
        rcases List.mem_cons.1 hw with h1 | h1
        · exact absurd h1.symm h
        · exact h1
      have hpos : 0 < rest.length := by
        rcases List.mem_map.1 hw' with ⟨q, hq, _⟩
        exact List.length_pos.2 (List.ne_nil_of_mem hq)
      rw [List.filter_cons_of_pos (by simpa using h), List.length_cons,
        ih hnd.2 hw', List.length_cons]
      omega

theorem length_insertDesc (x : String × ℝ) (l : List (String × ℝ)) :
    (insertDesc x l).length = l.length + 1 := by
  induction l with
  | nil => rfl
  | cons y ys ih =>
    by_cases h : y.2 ≤ x.2 <;> simp [insertDesc, h, ih]

theorem mem_insertDesc (x y : String × ℝ) (l : List (String × ℝ)) :
    y ∈ insertDesc x l ↔ y = x ∨ y ∈ l := by
  induction l with
  | nil => simp [insertDesc]
  | cons z zs ih =>
    by_cases h : z.2 ≤ x.2
    · simp [insertDesc, h]
    · simp [insertDesc, h, ih]
      tauto

theorem length_sortDesc (l : List (String × ℝ)) : (sortDesc l).length = l.length := by
  induction l with
  | nil => rfl
  | cons x xs ih => rw [sortDesc, length_insertDesc, ih, List.length_cons]

theorem mem_sortDesc (y : String × ℝ) (l : List (String × ℝ)) :
    y ∈ sortDesc l ↔ y ∈ l := by
  induction l with
  | nil => simp [sortDesc]
  | cons x xs ih =>
    rw [sortDesc, mem_insertDesc, ih, List.mem_cons]

theorem sorted_insertDesc (x : String × ℝ) (l : List (String × ℝ))
    (h : SortedDesc l) : SortedDesc (insertDesc x l) := by
  induction l with
  | nil => simp [insertDesc, SortedDesc]
  | cons y ys ih =>
    rw [SortedDesc, List.sorted_cons] at h
    by_cases hc : y.2 ≤ x.2
    · rw [insertDesc, if_pos hc, SortedDesc, List.sorted_cons]
      refine ⟨?_, ?_⟩
      · intro b hb
        rcases List.mem_cons.1 hb with h1 | h1
        · exact h1 ▸ hc
        · exact le_trans (h.1 b h1) hc
      · rw [List.sorted_cons]
        exact h
    · rw [insertDesc, if_neg hc, SortedDesc, List.sorted_cons]
      refine ⟨?_, ih h.2⟩
      intro b hb
      rcases (mem_insertDesc x b ys).1 hb with h1 | h1
      · rw [h1]
        exact le_of_lt (lt_of_not_le hc)
      · exact h.1 b h1

theorem sorted_sortDesc (l : List (String × ℝ)) : SortedDesc (sortDesc l) := by
  induction l with
  | nil => simp [sortDesc, SortedDesc]
  | cons x xs ih => exact sorted_insertDesc x (sortDesc xs) ih

/-! ### The claims about the similarity engine -/

/-- C1: for every store (a dict, so keys are unique, satisfying the spec's
uniform-dimensionality invariant), every word present in it and every
positive `top_n`, `find_most_similar` returns a list of exactly
`min top_n (vocabulary - 1)` scored pairs, sorted by non-increasing score,
never containing the query word itself; in particular a `top_n` beyond the
candidate count returns all candidates ranked rather than an error. -/
theorem claim_C1_ranked_result_shape (gv : Store) (word : String) (top_n : ℕ)
    (hd : dimsOK gv) (hnd : (gv.map Prod.fst).Nodup)
    (hw : (dictFind gv word).isSome = true) (hn : 0 < top_n) :
    ∃ res, find_most_similar word gv top_n = some res ∧
      res.length = min top_n (gv.length - 1) ∧ SortedDesc res ∧
      word ∉ res.map Prod.fst := by
  refine ⟨(sortDesc (similarities word gv)).take top_n, ?_, ?_, ?_, ?_⟩
  · unfold find_most_similar
    rw [if_pos hw]
  · rw [List.length_take, length_sortDesc, length_similarities hw,
      length_filter_ne_key gv word hnd ((dictFind_isSome_iff_mem_keys gv word).1 hw)]
  · exact List.Pairwise.sublist (List.take_sublist _ _) (sorted_sortDesc _)
  · intro hmem
    obtain ⟨p, hp, hp1⟩ := List.mem_map.1 hmem
    have hp' : p ∈ sortDesc (similarities word gv) := (List.take_subset _ _) hp
    have hp'' := (mem_sortDesc p _).1 hp'
    exact (mem_similarities hp'').1 hp1

/-- C1 witness: on the three-word store `gvA`, querying `a` with `top_n = 2`
yields `min 2 2 = 2` ranked pairs without `a`. -/
theorem claim_C1_witness :
    (dimsOK gvA ∧ (gvA.map Prod.fst).Nodup ∧ (dictFind gvA "a").isSome = true ∧ 0 < 2) ∧
    (∃ res, find_most_similar "a" gvA 2 = some res ∧
      res.length = min 2 (gvA.length - 1) ∧ SortedDesc res ∧ "a" ∉ res.map Prod.fst) :=
  ⟨⟨by decide, by decide, by decide, by decide⟩,
    claim_C1_ranked_result_shape gvA "a" 2 (by decide) (by decide) (by decide) (by decide)⟩

/-- C2: a query naming a word that is not a key of the store makes
`cosine_similarity` (in either argument position) and `find_most_similar`
return the NotFound outcome `None` — no score, no crash. -/
theorem claim_C2_not_found (gv : Store) (word other : String) (n : ℕ)
    (h : dictFind gv word = none) :
    cosine_similarity word other gv = none ∧ cosine_similarity other word gv = none ∧
      find_most_similar word gv n = none := by
  refine ⟨?_, ?_, ?_⟩
  · unfold cosine_similarity
    rw [h]
  · unfold cosine_similarity
    rw [h]
    cases dictFind gv other <;> rfl
  · simp [find_most_similar, h]

/-- C2 witness: `zzz` is absent from `gvB`; both queries return `None`. -/
theorem claim_C2_witness :
    (dictFind gvB "zzz" = none) ∧
    (cosine_similarity "zzz" "a" gvB = none ∧ cosine_similarity "a" "zzz" gvB = none ∧
      find_most_similar "zzz" gvB 5 = none) :=
  ⟨by decide, claim_C2_not_found gvB "zzz" "a" 5 (by decide)⟩

/-- C3 counterexample: the store `gvZ` maps `a` to the zero-magnitude vector
`[0]`, yet `cosine_similarity` returns an ordinary `some` score — the result
of the unchecked division — and not any distinct undefined-similarity
outcome (the source has no zero-norm branch at all, so nothing distinct from
a score can ever be signalled). -/
theorem claim_C3_counterexample :
    norm [(0 : ℚ)] = 0 ∧
    cosine_similarity "a" "b" gvZ =
      some (((dot [(0 : ℚ)] [(1 : ℚ)] : ℚ) : ℝ) / (norm [(0 : ℚ)] * norm [(1 : ℚ)])) := by
  constructor
  · unfold norm
    norm_num [dot]
  · norm_num +decide [cosine_similarity, gvZ, dictFind]

/-- C3 (amended): whenever both words are present, `cosine_similarity`
performs the division unconditionally and returns it as an ordinary score,
with no separate branch for a zero-magnitude vector (over the reals the
zero-denominator division is the junk value `0`; numpy yields `nan`). -/
theorem claim_C3_unchecked_division (gv : Store) (w1 w2 : String) (v1 v2 : List ℚ)
    (h1 : dictFind gv w1 = some v1) (h2 : dictFind gv w2 = some v2) :
    cosine_similarity w1 w2 gv = some (((dot v1 v2 : ℚ) : ℝ) / (norm v1 * norm v2)) := by
  unfold cosine_similarity
  rw [h1, h2]

/-- C3 witness: the amended fact applied at the zero-vector store `gvZ`. -/
theorem claim_C3_witness :
    (dictFind gvZ "a" = some [(0 : ℚ)] ∧ dictFind gvZ "b" = some [(1 : ℚ)]) ∧
    cosine_similarity "a" "b" gvZ =
      some (((dot [(0 : ℚ)] [(1 : ℚ)] : ℚ) : ℝ) / (norm [(0 : ℚ)] * norm [(1 : ℚ)])) :=
  ⟨⟨by decide, by decide⟩,
    claim_C3_unchecked_division gvZ "a" "b" [(0 : ℚ)] [(1 : ℚ)] (by decide) (by decide)⟩

/-- C7: cosine similarity is symmetric in its two word arguments for any
pair of words present in the store. -/
theorem claim_C7_symmetric (gv : Store) (a b : String) (hd : dimsOK gv)
    (ha : (dictFind gv a).isSome = true) (hb : (dictFind gv b).isSome = true) :
    cosine_similarity a b gv = cosine_similarity b a gv := by
  obtain ⟨v1, h1⟩ := Option.isSome_iff_exists.1 ha
  obtain ⟨v2, h2⟩ := Option.isSome_iff_exists.1 hb
  unfold cosine_similarity
  rw [h1, h2]
  simp only []
  rw [dot_comm, mul_comm (norm v1) (norm v2)]

/-- C7 witness: symmetry at the concrete pair of `gvB`. -/
theorem claim_C7_witness :
    (dimsOK gvB ∧ (dictFind gvB "a").isSome = true ∧ (dictFind gvB "b").isSome = true) ∧
    cosine_similarity "a" "b" gvB = cosine_similarity "b" "a" gvB :=
  ⟨⟨by decide, by decide, by decide⟩,
    claim_C7_symmetric gvB "a" "b" (by decide) (by decide) (by decide)⟩

/-- C8: every similarity score handed to a caller — by `cosine_similarity`
on present words and inside any ranked result of `find_most_similar` — lies
in the closed interval `[-1, 1]` (Cauchy–Schwarz, over the real-valued
model of float arithmetic). -/
theorem claim_C8_scores_in_Icc (gv : Store) (hd : dimsOK gv) (w1 w2 word : String)
    (n : ℕ) (r : ℝ) (res : List (String × ℝ)) :
    (cosine_similarity w1 w2 gv = some r → -1 ≤ r ∧ r ≤ 1) ∧
    (find_most_similar word gv n = some res → ∀ p ∈ res, -1 ≤ p.2 ∧ p.2 ≤ 1) := by
  constructor
  · intro h
    obtain ⟨v1, v2, _, _, hr⟩ := cosine_similarity_eq_some h
    rw [hr]
    exact cosScore_bounds v1 v2
  · intro h p hp
    unfold find_most_similar at h
    by_cases hw : (dictFind gv word).isSome = true
    · rw [if_pos hw] at h
      simp only [Option.some.injEq] at h
      subst h
      have hp1 : p ∈ sortDesc (similarities word gv) := (List.take_subset _ _) hp
      have hp2 := (mem_sortDesc p _).1 hp1
      obtain ⟨v1, v2, _, _, hr⟩ := cosine_similarity_eq_some (mem_similarities hp2).2
      rw [hr]
      exact cosScore_bounds v1 v2
    · rw [if_neg hw] at h
      exact absurd h (by simp)

/-- C8 witness: both bounds at the concrete store `gvB`, once through
`cosine_similarity` and once through the single ranked entry of
`find_most_similar`. -/
theorem claim_C8_witness :
    ((-1 : ℝ) ≤ scoreAB ∧ scoreAB ≤ 1) ∧ ((-1 : ℝ) ≤ scoreAB ∧ scoreAB ≤ 1) :=
  ⟨(claim_C8_scores_in_Icc gvB (by decide) "a" "b" "a" 5 scoreAB [("b", scoreAB)]).1 rfl,
    (claim_C8_scores_in_Icc gvB (by decide) "a" "b" "a" 5 scoreAB [("b", scoreAB)]).2 rfl
      ("b", scoreAB) (by simp)⟩

/-- C9: with `top_n = 0`, `find_most_similar` on a present word returns the
empty list (`sorted(...)[:0]`), not `None` and not an error. -/
theorem claim_C9_topn_zero (gv : Store) (word : String) (hd : dimsOK gv)
    (hw : (dictFind gv word).isSome = true) :
    find_most_similar word gv 0 = some [] := by
  unfold find_most_similar
  rw [if_pos hw, List.take_zero]

/-- C9 witness: the empty ranked result at the concrete store `gvB`. -/
theorem claim_C9_witness :
    (dimsOK gvB ∧ (dictFind gvB "a").isSome = true) ∧
    find_most_similar "a" gvB 0 = some [] :=
  ⟨⟨by decide, by decide⟩, claim_C9_topn_zero gvB "a" (by decide) (by decide)⟩

end Glove
